import Mathlib

/-!
Verification of the file-tree core of `projectable` (`src/app/filetree.rs`).

The embedding models:
* `Item` / `Dir` — the tagged node type and directory container from `crate::dir`
  (that module is not among the provided sources, so its operations are modelled
  from the specification, §3/§4.1; each such definition is marked below);
* `TreeItem` — the nested label tree (`tui_tree_widget::TreeItem`), a label plus
  ordered children, where a leaf is a node with no children;
* `Files`, `Filetree`, `build_filetree`, `last_of_path`, `get_node`,
  `get_selected`, `remove_file`, `add_file`, `remove_selected` — translated
  directly from `src/app/filetree.rs`;
* `TreeState` — the navigation state (`tui_tree_widget::TreeState`), modelled
  from the specification §3/§4.3 (selection location, expand set, visible
  depth-first order).

Paths are modelled as lists of components (Rust `PathBuf` iterated by
component).  Rust panics (slice-bound violations, `expect`, `unreachable!`)
are modelled by an explicit `panicked` outcome.
-/

/-- A node of the tree: a Directory or a File, each carrying its absolute path
as a list of components (`Item` from `crate::dir`, spec §3). -/
inductive Item : Type where
  | dir : List String → List Item → Item
  | file : List String → Item

/-- The path stored in a node. -/
def Item.path : Item → List String
  | .dir p _ => p
  | .file p => p

/-- A directory: its absolute path and its ordered children (`Dir` from
`crate::dir`, spec §3). -/
structure Dir where
  path : List String
  children : List Item

/-- View a directory as a tree node. -/
def Dir.toItem (d : Dir) : Item := .dir d.path d.children

/-- A node of the display projection: a label and ordered children
(`tui_tree_widget::TreeItem`; a leaf is a node with no children). -/
inductive TreeItem : Type where
  | node : String → List TreeItem → TreeItem

/-- `last_of_path` from `src/app/filetree.rs`: the final path component, or the
empty string for an empty path (`iter().last().unwrap_or_default()`). -/
def last_of_path (p : List String) : String := p.getLastD ""

mutual

/-- Projection of one node, as produced inside `build_filetree`
(`src/app/filetree.rs` lines 162–172): a directory becomes
`TreeItem::new(last_of_path(path), build_filetree(dir))`, a file becomes
`TreeItem::new_leaf(last_of_path(path))`. -/
def build_item : Item → TreeItem
  | .dir p chs => .node (last_of_path p) (build_items chs)
  | .file p => .node (last_of_path p) []

/-- Projection of a list of children, in order. -/
def build_items : List Item → List TreeItem
  | [] => []
  | it :: rest => build_item it :: build_items rest

end

/-- `build_filetree` from `src/app/filetree.rs`: one projected node per direct
child of the directory, in child order. -/
def build_filetree (d : Dir) : List TreeItem := build_items d.children

/-- Modelled from the spec (§4.1): `Dir::child` — bounds-checked direct-child
lookup, `None` if out of range. -/
def Dir.child (d : Dir) (i : Nat) : Option Item := d.children[i]?

/-- Modelled from the spec (§4.1): `Dir::remove_child` — fails with
`InvalidLocation` if the index is out of range; otherwise removes and returns
the node, shifting later indices down by one. -/
def Dir.remove_child (d : Dir) (i : Nat) : Except Unit (Item × Dir) :=
  match d.children[i]? with
  | some it => .ok (it, ⟨d.path, d.children.eraseIdx i⟩)
  | none => .error ()

/-- Modelled from the spec (§4.1): `Dir::new_file` — appends a new File child
with the given name under this directory's path.  The spec records no
rejection of duplicate names (§7, open question), so insertion always
succeeds. -/
def Dir.new_file (d : Dir) (name : String) : Dir :=
  ⟨d.path, d.children ++ [Item.file (d.path ++ [name])]⟩

/-- Iterative descent below one node: follow the remaining indices, failing as
soon as an index is out of range or the descent passes through a File. -/
def Item.descend : Item → List Nat → Option Item
  | it, [] => some it
  | .dir _ chs, i :: rest =>
    match chs[i]? with
    | some c => c.descend rest
    | none => none
  | .file _, _ :: _ => none

/-- Modelled from the spec (§4.1): `Dir::nested_child` — iterative descent
through the location; `None` as soon as any step is out of range or attempts
to descend through a File.  An empty location selects no child (mirroring
`Filetree::get_node`, which returns `None` for an empty location). -/
def Dir.nested_child (d : Dir) (loc : List Nat) : Option Item :=
  match loc with
  | [] => none
  | i :: rest =>
    match d.children[i]? with
    | some c => c.descend rest
    | none => none

/-- Functional write-back for `Dir::nested_child_mut`: replace the node at the
given location below this node.  Out-of-range steps leave the node unchanged;
they never arise where this is used, because the caller has already resolved
the same location. -/
def Item.set_nested : Item → List Nat → Item → Item
  | _, [], new => new
  | .dir p chs, i :: rest, new =>
    .dir p
      (match chs[i]? with
       | some c => chs.set i (c.set_nested rest new)
       | none => chs)
  | .file p, _ :: _, _ => .file p

/-- Functional write-back at a location inside a directory (the mutation that
Rust performs in place through `Dir::nested_child_mut`). -/
def Dir.set_nested (d : Dir) (loc : List Nat) (new : Item) : Dir :=
  match loc with
  | [] => d
  | i :: rest =>
    ⟨d.path,
      match d.children[i]? with
      | some c => d.children.set i (c.set_nested rest new)
      | none => d.children⟩

/-- The `Files` struct from `src/app/filetree.rs`: the stored projection
(`items`) paired with the directory tree (`dir`). -/
structure Files where
  items : List TreeItem
  dir : Dir

/-- Result of a `Files` operation.  `panicked` models a Rust panic (slice-bound
violation, `expect`, `unreachable!`); `error` models an `Err` return and
carries the state of the struct when the function returns; `ok` carries the
returned value and the state of the struct. -/
inductive Outcome (α : Type) : Type where
  | panicked : Outcome α
  | error : Files → Outcome α
  | ok : α → Files → Outcome α

/-- `Files::update` from `src/app/filetree.rs`: rebuild the stored projection
from the current directory tree. -/
def Files.update (fs : Files) : Files := { fs with items := build_filetree fs.dir }

/-- `Files::remove_file` from `src/app/filetree.rs` lines 14–31.  A location of
length 1 removes directly from the root directory; otherwise the code slices
`location[..location.len() - 1]` — which panics for an empty location — then
requires the prefix to resolve to a directory and removes the final index from
it.  `update` runs before every `Ok` return. -/
def Files.remove_file (fs : Files) (loc : List Nat) : Outcome Item :=
  if loc.length = 1 then
    match fs.dir.remove_child (loc.headD 0) with
    | .error _ => .error fs
    | .ok (item, d') => .ok item (Files.update { fs with dir := d' })
  else
    match loc with
    | [] => .panicked
    | _ :: _ =>
      match fs.dir.nested_child loc.dropLast with
      | some (Item.dir p chs) =>
        match Dir.remove_child ⟨p, chs⟩ (loc.getLastD 0) with
        | .error _ => .error fs
        | .ok (item, d') =>
          .ok item (Files.update { fs with dir := fs.dir.set_nested loc.dropLast d'.toItem })
      | some (Item.file _) => .error fs
      | none => .error fs

/-- `Files::add_file` from `src/app/filetree.rs` lines 33–64.  Resolve the
location (must be a directory, else `InvalidLocation`), append a new file via
`new_file`, rebuild the projection, then re-resolve the location and scan that
directory's children for the first whose final path component equals `name`.
The code then asserts the found child is a File (`unreachable!` otherwise) and
returns it; the `ok` payload is the returned file's path. -/
def Files.add_file (fs : Files) (loc : List Nat) (name : String) : Outcome (List String) :=
  match fs.dir.nested_child loc with
  | some (Item.dir p chs) =>
    let fs1 := Files.update { fs with dir := fs.dir.set_nested loc (Dir.new_file ⟨p, chs⟩ name).toItem }
    match fs1.dir.nested_child loc with
    | some (Item.dir _ chs') =>
      match chs'.find? (fun c => last_of_path c.path == name) with
      | some (Item.file q) => .ok q fs1
      | some (Item.dir _ _) => .panicked
      | none => .panicked
    | _ => .panicked
  | some (Item.file _) => .error fs
  | none => .error fs

/-- Modelled from the spec (§3): the navigation state
(`tui_tree_widget::TreeState`) — the selection location and the expand set. -/
structure TreeState where
  selected : List Nat
  opened : List (List Nat)

/-- Modelled from the spec: `TreeState::close` — remove a location from the
expand set. -/
def TreeState.close (st : TreeState) (loc : List Nat) : TreeState :=
  { st with opened := st.opened.filter (fun l => decide (l ≠ loc)) }

mutual

/-- Visible depth-first order below one projected node at location `loc`: the
node itself, then — only when `loc` is in the expand set — its children.
Modelled from the spec (§3/§4.3: visible = all ancestors expanded). -/
def flattenItem (opened : List (List Nat)) (loc : List Nat) : TreeItem → List (List Nat)
  | .node _ chs =>
    loc :: (if loc ∈ opened then flattenList opened loc 0 chs else [])

/-- Visible depth-first order for the children of a node, starting at child
index `i` under prefix `pre`. -/
def flattenList (opened : List (List Nat)) (pre : List Nat) : Nat → List TreeItem → List (List Nat)
  | _, [] => []
  | i, it :: rest => flattenItem opened (pre ++ [i]) it ++ flattenList opened pre (i + 1) rest

end

/-- The visible depth-first order of the whole projection under a navigation
state's expand set. -/
def visibleOrder (st : TreeState) (items : List TreeItem) : List (List Nat) :=
  flattenList st.opened [] 0 items

/-- Index of the first occurrence of a location in a list of locations. -/
def idxOfLoc (x : List Nat) : List (List Nat) → Option Nat
  | [] => none
  | y :: ys => if y = x then some 0 else (idxOfLoc x ys).map (· + 1)

/-- Modelled from the spec (§4.3): `first()` — select the first node of the
visible depth-first order (no change when nothing is visible). -/
def TreeState.select_first (st : TreeState) (items : List TreeItem) : TreeState :=
  { st with selected := (visibleOrder st items).headD st.selected }

/-- Modelled from the spec (§4.3): `last()` — select the last node of the
visible depth-first order (no change when nothing is visible). -/
def TreeState.select_last (st : TreeState) (items : List TreeItem) : TreeState :=
  { st with selected := (visibleOrder st items).getLastD st.selected }

/-- Modelled from the spec (§4.3): `down()` — move the selection to the next
node in visible depth-first order, clamping at the last visible node. -/
def TreeState.key_down (st : TreeState) (items : List TreeItem) : TreeState :=
  match idxOfLoc st.selected (visibleOrder st items) with
  | none => st
  | some i =>
    { st with
      selected :=
        (visibleOrder st items).getD
          (min (i + 1) ((visibleOrder st items).length - 1)) st.selected }

/-- Modelled from the spec (§4.3): `up()` — move the selection to the previous
node in visible depth-first order, clamping at the first visible node. -/
def TreeState.key_up (st : TreeState) (items : List TreeItem) : TreeState :=
  match idxOfLoc st.selected (visibleOrder st items) with
  | none => st
  | some i => { st with selected := (visibleOrder st items).getD (i - 1) st.selected }

/-- The `Filetree` struct from `src/app/filetree.rs`: navigation state, the
`Files` pair, and the root path. -/
structure Filetree where
  state : TreeState
  files : Files
  root_path : List String

/-- `Filetree::first` (`self.state.select_first()`), over the stored
projection. -/
def Filetree.first (t : Filetree) : Filetree :=
  { t with state := t.state.select_first t.files.items }

/-- `Filetree::last` (`self.state.select_last(&self.files.items)`). -/
def Filetree.last (t : Filetree) : Filetree :=
  { t with state := t.state.select_last t.files.items }

/-- `Filetree::down` (`self.state.key_down(&self.files.items)`). -/
def Filetree.down (t : Filetree) : Filetree :=
  { t with state := t.state.key_down t.files.items }

/-- `Filetree::up` (`self.state.key_up(&self.files.items)`). -/
def Filetree.up (t : Filetree) : Filetree :=
  { t with state := t.state.key_up t.files.items }

/-- `Filetree::get_node` from `src/app/filetree.rs` lines 118–129: take the
first index as a direct child of the root directory (`None` for an empty
location or an out-of-range index), then loop over the remaining indices,
stepping into directories and failing on files; the fold carries the
early-`None` returns of the Rust loop. -/
def Filetree.get_node (t : Filetree) (place : List Nat) : Option Item :=
  match place with
  | [] => none
  | i :: rest =>
    rest.foldl
      (fun node idx =>
        match node with
        | some (Item.dir _ chs) => chs[idx]?
        | some (Item.file _) => none
        | none => none)
      (t.files.dir.children[i]?)

/-- `Filetree::get_selected` from `src/app/filetree.rs` lines 131–134:
`get_node` at the current selection; `none` models the `expect` panic. -/
def Filetree.get_selected (t : Filetree) : Option Item :=
  t.get_node t.state.selected

/-- Result of a `Filetree` operation, mirroring `Outcome` at the outer
struct. -/
inductive FOutcome : Type where
  | panicked : FOutcome
  | error : Filetree → FOutcome
  | ok : Item → Filetree → FOutcome

/-- `Filetree::remove_file` from `src/app/filetree.rs` lines 136–141: delegate
to `Files::remove_file`; on success additionally `self.state.close(&self.state.selected())`
— the location closed is the *currently selected* one. -/
def Filetree.remove_file (t : Filetree) (loc : List Nat) : FOutcome :=
  match t.files.remove_file loc with
  | .panicked => .panicked
  | .error fs' => .error { t with files := fs' }
  | .ok item fs' => .ok item { t with files := fs', state := t.state.close t.state.selected }

/-- `Filetree::remove_selected` from `src/app/filetree.rs` lines 148–150:
remove at the currently selected location. -/
def Filetree.remove_selected (t : Filetree) : FOutcome :=
  t.remove_file t.state.selected

/-- Validity of a location (spec §3): nonempty, every index in range, and no
descent through a File. -/
def validLocB : List Item → List Nat → Bool
  | _, [] => false
  | chs, i :: rest =>
    match chs[i]? with
    | none => false
    | some it =>
      if rest.isEmpty then true
      else
        match it with
        | Item.dir _ chs' => validLocB chs' rest
        | Item.file _ => false

/-- Lookup written from the spec's words (§4.3 `get_node`): recursive descent,
`None` on any invalid index or descent through a File. -/
def specLookup : List Item → List Nat → Option Item
  | _, [] => none
  | chs, [i] => chs[i]?
  | chs, i :: rest =>
    match chs[i]? with
    | some (Item.dir _ chs') => specLookup chs' rest
    | _ => none

/-- Label tree written from the spec's words (§3 Projection): one labeled node
per Directory/File, label = final path component, directories carry their
children's subtrees, files are leaves. -/
def labelTree : Item → TreeItem
  | Item.file p => TreeItem.node (last_of_path p) []
  | Item.dir p chs => TreeItem.node (last_of_path p) (chs.attach.map (fun c => labelTree c.1))
decreasing_by
  simp_wf
  have := List.sizeOf_lt_of_mem c.2
  omega

example : build_items [Item.dir ["r"] [Item.file ["r", "a"]]]
    = [TreeItem.node "r" [TreeItem.node "a" []]] := rfl

example :
    (Files.remove_file ⟨[], ⟨["r"], [Item.file ["r", "a"]]⟩⟩ [0])
      = Outcome.ok (Item.file ["r", "a"]) ⟨[], ⟨["r"], []⟩⟩ := rfl

example : (Files.remove_file ⟨[], ⟨["r"], [Item.file ["r", "a"]]⟩⟩ []) = Outcome.panicked := rfl

example :
    (Files.add_file ⟨[], ⟨["r"], [Item.dir ["r", "d"] []]⟩⟩ [0] "n")
      = Outcome.ok ["r", "d", "n"]
          ⟨[TreeItem.node "d" [TreeItem.node "n" []]],
            ⟨["r"], [Item.dir ["r", "d"] [Item.file ["r", "d", "n"]]]⟩⟩ := rfl

/-! ### Lookup lemmas -/

/-- One-step unfolding of descent below a directory node. -/
theorem descend_dir_cons (p : List String) (chs : List Item) (i : Nat) (rest : List Nat) :
    (Item.dir p chs).descend (i :: rest) = (chs[i]?).bind (fun c => c.descend rest) := by
  cases hc : chs[i]? <;> simp [Item.descend, hc]

/-- One-step unfolding of the spec-side lookup at a single index. -/
theorem specLookup_single (chs : List Item) (i : Nat) : specLookup chs [i] = chs[i]? := rfl

/-- One-step unfolding of the spec-side lookup at two or more indices. -/
theorem specLookup_cons_cons (chs : List Item) (i j : Nat) (r : List Nat) :
    specLookup chs (i :: j :: r)
      = match chs[i]? with
        | some (Item.dir _ chs') => specLookup chs' (j :: r)
        | _ => none := rfl

/-- The spec-side recursive lookup agrees with first-step-then-descend. -/
theorem specLookup_cons :
    ∀ (rest : List Nat) (chs : List Item) (i : Nat),
      specLookup chs (i :: rest) = (chs[i]?).bind (fun c => c.descend rest) := by
  intro rest
  induction rest with
  | nil =>
    intro chs i
    rw [specLookup_single]
    cases hc : chs[i]? <;> simp [Item.descend, hc]
  | cons j r ih =>
    intro chs i
    rw [specLookup_cons_cons]
    cases hc : chs[i]? with
    | none => simp
    | some c =>
      cases c with
      | file p => simp [Item.descend]
      | dir p chs' =>
        simp only [Option.some_bind, descend_dir_cons]
        exact ih chs' j

/-- The fold inside `Filetree::get_node` performs exactly the iterative descent
`Item.descend` below the node reached by the first index. -/
theorem foldl_step_descend (rest : List Nat) :
    ∀ acc : Option Item,
      rest.foldl
        (fun node idx =>
          match node with
          | some (Item.dir _ chs) => chs[idx]?
          | some (Item.file _) => none
          | none => none)
        acc
      = acc.bind (fun it => it.descend rest) := by
  induction rest with
  | nil => intro acc; cases acc <;> simp [Item.descend]
  | cons j r ih =>
    intro acc
    rw [List.foldl_cons, ih]
    cases acc with
    | none => simp
    | some it =>
      cases it with
      | file p => simp [Item.descend]
      | dir p chs =>
        simp only [Option.some_bind, descend_dir_cons]

/-- `Filetree::get_node` computes the spec-side recursive lookup. -/
theorem get_node_eq_specLookup (t : Filetree) (place : List Nat) :
    t.get_node place = specLookup t.files.dir.children place := by
  cases place with
  | nil => rfl
  | cons i rest =>
    rw [Filetree.get_node, foldl_step_descend, specLookup_cons]

/-- One-step unfolding of location validity at a nonempty location. -/
theorem validLocB_cons (chs : List Item) (i : Nat) (rest : List Nat) :
    validLocB chs (i :: rest)
      = match chs[i]? with
        | none => false
        | some it =>
          if rest.isEmpty then true
          else
            match it with
            | Item.dir _ chs' => validLocB chs' rest
            | Item.file _ => false := rfl

/-- Location validity decides whether the spec-side lookup succeeds. -/
theorem validLocB_eq_isSome :
    ∀ (loc : List Nat) (chs : List Item),
      validLocB chs loc = (specLookup chs loc).isSome := by
  intro loc
  induction loc with
  | nil => intro chs; simp [validLocB, specLookup]
  | cons i rest ih =>
    intro chs
    rw [specLookup_cons, validLocB_cons]
    cases hc : chs[i]? with
    | none => simp
    | some c =>
      cases rest with
      | nil => simp [Item.descend]
      | cons j r =>
        cases c with
        | file p => simp [Item.descend]
        | dir p chs' =>
          simp only [List.isEmpty_cons, Option.some_bind, descend_dir_cons, if_false,
            Bool.false_eq_true]
          rw [ih chs', specLookup_cons]

/-- The children of a list of nodes map one-to-one onto the spec-side label
tree. -/
theorem build_items_map : ∀ (its : List Item), build_items its = its.map labelTree
  | [] => rfl
  | it :: rest => by
    have hrest := build_items_map rest
    cases it with
    | file p => simp [build_items, build_item, labelTree, hrest]
    | dir p chs =>
      have hchs := build_items_map chs
      simp [build_items, build_item, labelTree, hrest, hchs, List.attach_map_val]
termination_by its => sizeOf its

/-- Rebuilding leaves the projection equal to the fresh rebuild of the new
tree. -/
theorem update_items_eq (fs : Files) :
    (Files.update fs).items = build_filetree (Files.update fs).dir := rfl

/-- Claim C8: `get_node` is a pure lookup by iterative descent: it equals the
recursive spec-side lookup, which returns the addressed node exactly when
every index is in range and every non-final step resolves through a
Directory, and `none` otherwise; being a function of the tree, it performs no
mutation. -/
theorem claim_C8_get_node_pure_lookup (t : Filetree) (place : List Nat) :
    t.get_node place = specLookup t.files.dir.children place :=
  get_node_eq_specLookup t place

/-- Claim C5: `get_selected` looks up the node addressed by the current
selection and succeeds exactly when the selection is a valid location (every
index in range, no descent through a File); an invalid selection yields
`none`, the model of the fatal `expect` panic. -/
theorem claim_C5_get_selected_total (t : Filetree) :
    (t.get_selected).isSome = validLocB t.files.dir.children t.state.selected ∧
      t.get_selected = t.get_node t.state.selected := by
  constructor
  · rw [Filetree.get_selected, get_node_eq_specLookup, validLocB_eq_isSome]
  · rfl

/-- Claim C6: `build_filetree` produces exactly one labeled node per child, in
the same order and nesting as the directory tree, with every label the final
component of the node's path (`labelTree` is that clause of the spec, written
as a definition). -/
theorem claim_C6_projection_shape (d : Dir) :
    build_filetree d = d.children.map labelTree :=
  build_items_map d.children

/-- Claim C9: `remove_file` on the empty location panics (the
`location[..location.len() - 1]` slice underflows); it does not return an
invalid-location error. -/
theorem claim_C9_remove_empty_panics (fs : Files) :
    fs.remove_file [] = Outcome.panicked := rfl

/-- Claim C1: whenever `remove_file` or `add_file` returns successfully, the
stored projection equals the projection freshly built from the current
directory tree. -/
theorem claim_C1_projection_fresh (fs : Files) (loc : List Nat) (name : String) :
    (∀ it fs', fs.remove_file loc = Outcome.ok it fs' → fs'.items = build_filetree fs'.dir) ∧
      (∀ q fs', fs.add_file loc name = Outcome.ok q fs' → fs'.items = build_filetree fs'.dir) := by
  constructor
  · intro it fs' h
    unfold Files.remove_file at h
    split at h
    · split at h
      · simp at h
      · rw [Outcome.ok.injEq] at h
        obtain ⟨h1, h2⟩ := h
        subst h2
        exact update_items_eq _
    · split at h
      · simp at h
      · split at h
        · split at h
          · simp at h
          · rw [Outcome.ok.injEq] at h
            obtain ⟨h1, h2⟩ := h
            subst h2
            exact update_items_eq _
        · simp at h
        · simp at h
  · intro q fs' h
    unfold Files.add_file at h
    split at h
    · dsimp only [] at h
      split at h
      · split at h
        · rw [Outcome.ok.injEq] at h
          obtain ⟨h1, h2⟩ := h
          subst h2
          exact update_items_eq _
        · simp at h
        · simp at h
      · simp at h
    · simp at h
    · simp at h

/-- Claim C7: whenever `remove_file` or `add_file` returns an invalid-location
error, the `Files` state — directory tree and projection together — is exactly
the state before the call. -/
theorem claim_C7_error_atomicity (fs : Files) (loc : List Nat) (name : String) :
    (∀ fs', fs.remove_file loc = Outcome.error fs' → fs' = fs) ∧
      (∀ fs', fs.add_file loc name = Outcome.error fs' → fs' = fs) := by
  constructor
  · intro fs' h
    unfold Files.remove_file at h
    split at h
    · split at h
      · rw [Outcome.error.injEq] at h
        exact h.symm
      · simp at h
    · split at h
      · simp at h
      · split at h
        · split at h
          · rw [Outcome.error.injEq] at h
            exact h.symm
          · simp at h
        · rw [Outcome.error.injEq] at h
          exact h.symm
        · rw [Outcome.error.injEq] at h
          exact h.symm
  · intro fs' h
    unfold Files.add_file at h
    split at h
    · dsimp only [] at h
      split at h
      · split at h
        · simp at h
        · simp at h
        · simp at h
      · simp at h
    · rw [Outcome.error.injEq] at h
      exact h.symm
    · rw [Outcome.error.injEq] at h
      exact h.symm

/-- Claim C2: `remove_file` with a length-1 location removes the child at that
index directly from the root directory; with a longer location it resolves the
location minus its last index, fails with an invalid-location error when that
prefix does not resolve or resolves to a File, and otherwise removes the child
at the final index from the resolved directory, returning the removed node
with the projection rebuilt from the new tree. -/
theorem claim_C2_remove_file_spec (fs : Files) (loc : List Nat) :
    (∀ i, loc = [i] → ∀ h : i < fs.dir.children.length,
        fs.remove_file loc
          = Outcome.ok fs.dir.children[i]
              ⟨build_filetree ⟨fs.dir.path, fs.dir.children.eraseIdx i⟩,
                ⟨fs.dir.path, fs.dir.children.eraseIdx i⟩⟩) ∧
    (∀ i, loc = [i] → fs.dir.children.length ≤ i → fs.remove_file loc = Outcome.error fs) ∧
    (2 ≤ loc.length → fs.dir.nested_child loc.dropLast = none →
        fs.remove_file loc = Outcome.error fs) ∧
    (∀ q, 2 ≤ loc.length → fs.dir.nested_child loc.dropLast = some (Item.file q) →
        fs.remove_file loc = Outcome.error fs) ∧
    (∀ p chs, 2 ≤ loc.length → fs.dir.nested_child loc.dropLast = some (Item.dir p chs) →
        (∀ h : loc.getLastD 0 < chs.length,
            fs.remove_file loc
              = Outcome.ok chs[loc.getLastD 0]
                  ⟨build_filetree
                      (fs.dir.set_nested loc.dropLast
                        (Item.dir p (chs.eraseIdx (loc.getLastD 0)))),
                    fs.dir.set_nested loc.dropLast
                      (Item.dir p (chs.eraseIdx (loc.getLastD 0)))⟩) ∧
          (chs.length ≤ loc.getLastD 0 → fs.remove_file loc = Outcome.error fs)) := by
  refine ⟨?_, ?_, ?_, ?_, ?_⟩
  · intro i hloc h
    subst hloc
    unfold Files.remove_file
    simp [Dir.remove_child, List.getElem?_eq_getElem h, Files.update, build_filetree]
  · intro i hloc h
    subst hloc
    unfold Files.remove_file
    simp [Dir.remove_child, List.getElem?_eq_none h]
  · intro hlen hres
    match loc, hlen with
    | j :: k :: r, _ =>
      unfold Files.remove_file
      rw [if_neg (by simp)]
      rw [hres]
  · intro q hlen hres
    match loc, hlen with
    | j :: k :: r, _ =>
      unfold Files.remove_file
      rw [if_neg (by simp)]
      rw [hres]
  · intro p chs hlen hres
    constructor
    · intro h
      match loc, hlen with
      | j :: k :: r, _ =>
        unfold Files.remove_file
        rw [if_neg (by simp)]
        rw [hres]
        simp only [Dir.remove_child, List.getElem?_eq_getElem h, Files.update, Dir.toItem,
          build_filetree]
    · intro h
      match loc, hlen with
      | j :: k :: r, _ =>
        unfold Files.remove_file
        rw [if_neg (by simp)]
        rw [hres]
        simp only [Dir.remove_child, List.getElem?_eq_none h]

/-! ### Write-back lemmas -/

/-- Descent along an empty location returns the node itself. -/
theorem descend_nil (it : Item) : it.descend [] = some it := by cases it <;> rfl

/-- Write-back at an empty location replaces the node itself. -/
theorem set_nested_nil (it new : Item) : it.set_nested [] new = new := by cases it <;> rfl

/-- Replacing the node at a resolvable location makes descent at that location
return the replacement. -/
theorem descend_set_nested :
    ∀ (loc : List Nat) (it x new : Item),
      it.descend loc = some x → (it.set_nested loc new).descend loc = some new := by
  intro loc
  induction loc with
  | nil => intro it x new h; rw [set_nested_nil, descend_nil]
  | cons i rest ih =>
    intro it x new h
    cases it with
    | file p => simp [Item.descend] at h
    | dir p chs =>
      rw [descend_dir_cons] at h
      cases hc : chs[i]? with
      | none => rw [hc] at h; simp at h
      | some c =>
        rw [hc] at h
        simp only [Option.some_bind] at h
        obtain ⟨hi, -⟩ := List.getElem?_eq_some_iff.mp hc
        simp only [Item.set_nested, hc, descend_dir_cons]
        rw [List.getElem?_set_eq_of_lt _ hi]
        simp only [Option.some_bind]
        exact ih c x new h

/-- Directory-level version of `descend_set_nested`: after the functional
write-back, re-resolving the same location yields the written node. -/
theorem nested_child_set_nested (d : Dir) (loc : List Nat) (x new : Item)
    (h : d.nested_child loc = some x) :
    (d.set_nested loc new).nested_child loc = some new := by
  cases loc with
  | nil => simp [Dir.nested_child] at h
  | cons i rest =>
    cases hc : d.children[i]? with
    | none => simp [Dir.nested_child, hc] at h
    | some c =>
      simp only [Dir.nested_child, hc] at h
      obtain ⟨hi, -⟩ := List.getElem?_eq_some_iff.mp hc
      simp only [Dir.set_nested, hc, Dir.nested_child]
      rw [List.getElem?_set_eq_of_lt _ hi]
      exact descend_set_nested rest c x new h

/-- Claim C3 (counterexample): when the target directory already contains a
*directory* whose final name equals the new file's name, `add_file` does not
return the first matching child — it panics at the `unreachable!`. -/
theorem claim_C3_cex :
    Files.add_file
        ⟨[], ⟨["r"], [Item.dir ["r", "d"] [Item.dir ["r", "d", "a"] []]]⟩⟩ [0] "a"
      = Outcome.panicked := rfl

/-- Claim C3 (amended): for a location resolving to a directory, `add_file`
appends a file with the given name, rebuilds the projection, and scans the
directory's new children for the first whose final path component equals the
name: if that first match is a File it is returned (so an earlier entry with
the same final name wins over the newly inserted node); if it is a Directory,
the call panics. -/
theorem claim_C3_amended (fs : Files) (loc : List Nat) (name : String) (p : List String)
    (chs : List Item) (hres : fs.dir.nested_child loc = some (Item.dir p chs)) :
    (∃ q, (chs ++ [Item.file (p ++ [name])]).find? (fun c => last_of_path c.path == name)
          = some (Item.file q) ∧
        fs.add_file loc name
          = Outcome.ok q
              ⟨build_filetree
                  (fs.dir.set_nested loc (Item.dir p (chs ++ [Item.file (p ++ [name])]))),
                fs.dir.set_nested loc (Item.dir p (chs ++ [Item.file (p ++ [name])]))⟩) ∨
    (∃ q cs, (chs ++ [Item.file (p ++ [name])]).find? (fun c => last_of_path c.path == name)
          = some (Item.dir q cs) ∧
        fs.add_file loc name = Outcome.panicked) := by
  have hset : (fs.dir.set_nested loc (Dir.new_file ⟨p, chs⟩ name).toItem).nested_child loc
      = some (Item.dir p (chs ++ [Item.file (p ++ [name])])) :=
    nested_child_set_nested _ _ _ _ hres
  unfold Files.add_file
  rw [hres]
  dsimp only [Files.update]
  rw [hset]
  dsimp only []
  cases hfind : (chs ++ [Item.file (p ++ [name])]).find? (fun c => last_of_path c.path == name) with
  | none =>
    exfalso
    rw [List.find?_eq_none] at hfind
    refine hfind (Item.file (p ++ [name])) (by simp) ?_
    simp [Item.path, last_of_path, List.getLastD_concat]
  | some c =>
    cases c with
    | file q =>
      left
      exact ⟨q, rfl, rfl⟩
    | dir q cs =>
      right
      exact ⟨q, cs, rfl, rfl⟩

/-- A concrete tree for exercising `remove_selected`: root `r` containing
directory `a` (expanded) which contains directory `b` (also expanded), with
`b` selected. -/
def exDir4 : Dir := ⟨["r"], [Item.dir ["r", "a"] [Item.dir ["r", "a", "b"] []]]⟩

/-- The `Filetree` over `exDir4` with selection `[0, 0]` and expand set
`{[0], [0, 0]}`. -/
def exTree4 : Filetree := ⟨⟨[0, 0], [[0], [0, 0]]⟩, ⟨build_filetree exDir4, exDir4⟩, ["r"]⟩

/-- The state `exTree4` reaches after `remove_selected`. -/
def exTree4' : Filetree :=
  ⟨⟨[0, 0], [[0]]⟩, ⟨[TreeItem.node "a" []], ⟨["r"], [Item.dir ["r", "a"] []]⟩⟩, ["r"]⟩

/-- Claim C4 (counterexample): `remove_selected` removes the node at the
selected location `[0, 0]`, but the *parent* location `[0]` is still in the
expand set afterwards — the code collapses the selected location itself, not
the parent. -/
theorem claim_C4_cex :
    exTree4.remove_selected = FOutcome.ok (Item.dir ["r", "a", "b"] []) exTree4' ∧
      [0] ∈ exTree4'.state.opened := by
  constructor
  · rfl
  · simp [exTree4']

/-- Claim C4 (amended): `remove_selected` removes the node at the currently
selected location via the location-addressed removal, and removes the
*selected location itself* (the one whose index the next node will occupy)
from the expand set, leaving the selection and every other expand-set entry —
including the parent's — unchanged. -/
theorem claim_C4_amended (t : Filetree) (it : Item) (t' : Filetree)
    (h : t.remove_selected = FOutcome.ok it t') :
    t.files.remove_file t.state.selected = Outcome.ok it t'.files ∧
      t'.state.opened = t.state.opened.filter (fun l => decide (l ≠ t.state.selected)) ∧
      t'.state.selected = t.state.selected := by
  unfold Filetree.remove_selected Filetree.remove_file at h
  cases hr : t.files.remove_file t.state.selected with
  | panicked => rw [hr] at h; simp at h
  | error fs1 => rw [hr] at h; simp at h
  | ok item fs1 =>
    rw [hr] at h
    dsimp only [] at h
    rw [FOutcome.ok.injEq] at h
    obtain ⟨h1, h2⟩ := h
    subst h1
    subst h2
    exact ⟨rfl, rfl, rfl⟩

/-! ### Visible-order lemmas -/

/-- Every location produced below child index `i` of prefix `pre` extends
`pre` with a first component at least `i`. -/
theorem mem_flattenList :
    ∀ (its : List TreeItem) (opened : List (List Nat)) (pre : List Nat) (i : Nat)
      (loc : List Nat), loc ∈ flattenList opened pre i its →
      ∃ j tl, i ≤ j ∧ loc = pre ++ j :: tl
  | [], _, _, _, _, h => by simp [flattenList] at h
  | .node s chs :: rest, opened, pre, i, loc, h => by
    rw [flattenList] at h
    rcases List.mem_append.mp h with h1 | h2
    · rw [flattenItem] at h1
      rcases List.mem_cons.mp h1 with h3 | h4
      · exact ⟨i, [], Nat.le_refl i, by simp [h3]⟩
      · by_cases hm : pre ++ [i] ∈ opened
        · rw [if_pos hm] at h4
          obtain ⟨j, tl, hij, heq⟩ := mem_flattenList chs opened (pre ++ [i]) 0 loc h4
          refine ⟨i, j :: tl, Nat.le_refl i, ?_⟩
          rw [heq, List.append_assoc]
          rfl
        · rw [if_neg hm] at h4
          simp at h4
    · obtain ⟨j, tl, hij, heq⟩ := mem_flattenList rest opened pre (i + 1) loc h2
      exact ⟨j, tl, by omega, heq⟩
termination_by its => sizeOf its

/-- The visible depth-first order never lists the same location twice. -/
theorem nodup_flattenList :
    ∀ (its : List TreeItem) (opened : List (List Nat)) (pre : List Nat) (i : Nat),
      (flattenList opened pre i its).Nodup
  | [], _, _, _ => by simp [flattenList]
  | .node s chs :: rest, opened, pre, i => by
    rw [flattenList, flattenItem, List.nodup_append]
    refine ⟨?_, nodup_flattenList rest opened pre (i + 1), ?_⟩
    · rw [List.nodup_cons]
      constructor
      · intro hmem
        by_cases hm : pre ++ [i] ∈ opened
        · rw [if_pos hm] at hmem
          obtain ⟨j, tl, hij, heq⟩ := mem_flattenList chs opened (pre ++ [i]) 0 _ hmem
          have h2 : (pre ++ [i]) ++ ([] : List Nat) = (pre ++ [i]) ++ j :: tl := by
            rw [List.append_nil]
            exact heq
          have h3 := List.append_cancel_left h2
          simp at h3
        · rw [if_neg hm] at hmem
          simp at hmem
      · by_cases hm : pre ++ [i] ∈ opened
        · rw [if_pos hm]
          exact nodup_flattenList chs opened (pre ++ [i]) 0
        · rw [if_neg hm]
          simp
    · intro x hx hy
      obtain ⟨j, tl, hij, heq⟩ := mem_flattenList rest opened pre (i + 1) x hy
      rcases List.mem_cons.mp hx with h3 | h4
      · rw [h3] at heq
        have h5 := List.append_cancel_left heq
        simp only [List.cons.injEq] at h5
        obtain ⟨h6, -⟩ := h5
        omega
      · by_cases hm : pre ++ [i] ∈ opened
        · rw [if_pos hm] at h4
          obtain ⟨j', tl', hij', heq'⟩ := mem_flattenList chs opened (pre ++ [i]) 0 x h4
          rw [heq', List.append_assoc] at heq
          have h5 := List.append_cancel_left heq
          simp only [List.singleton_append, List.cons.injEq] at h5
          obtain ⟨h6, -⟩ := h5
          omega
        · rw [if_neg hm] at h4
          simp at h4
termination_by its => sizeOf its

/-- `idxOfLoc` finds the head of a list at index 0. -/
theorem idxOfLoc_self (x : List Nat) (ys : List (List Nat)) : idxOfLoc x (x :: ys) = some 0 := by
  simp [idxOfLoc]

/-- In a duplicate-free list, the last element is found at the last index. -/
theorem idxOfLoc_getLast? :
    ∀ (v : List (List Nat)) (x : List Nat), v.Nodup → v.getLast? = some x →
      idxOfLoc x v = some (v.length - 1)
  | [], x, _, h => by simp at h
  | [y], x, _, h => by
    simp at h
    subst h
    simp [idxOfLoc]
  | y :: z :: ys, x, hn, h => by
    rw [List.getLast?_cons_cons] at h
    have hx : x ∈ z :: ys := List.mem_of_getLast?_eq_some h
    have hne : ¬ y = x := by
      intro contra
      rw [List.nodup_cons] at hn
      exact hn.1 (contra ▸ hx)
    have ih := idxOfLoc_getLast? (z :: ys) x (List.nodup_cons.mp hn).2 h
    rw [idxOfLoc, if_neg hne, ih]
    simp only [Option.map_some', Option.some.injEq, List.length_cons]
    omega

/-- Fetching at the last index returns the last element. -/
theorem getD_getLast? (v : List (List Nat)) (x d : List Nat) (h : v.getLast? = some x) :
    v.getD (v.length - 1) d = x := by
  rw [List.getD_eq_getElem?_getD, ← List.getLast?_eq_getElem?, h]
  rfl

/-- When the selection is the first visible node, `up` is a no-op. -/
theorem key_up_head (st : TreeState) (items : List TreeItem)
    (h : (visibleOrder st items).head? = some st.selected) :
    st.key_up items = st := by
  cases hv : visibleOrder st items with
  | nil => rw [hv] at h; simp at h
  | cons x v' =>
    rw [hv] at h
    simp only [List.head?_cons, Option.some.injEq] at h
    subst h
    unfold TreeState.key_up
    rw [hv, idxOfLoc_self]
    rfl

/-- When the selection is the last visible node, `down` is a no-op. -/
theorem key_down_last (st : TreeState) (items : List TreeItem)
    (h : (visibleOrder st items).getLast? = some st.selected) :
    st.key_down items = st := by
  have hn : (visibleOrder st items).Nodup := nodup_flattenList items st.opened [] 0
  have hidx := idxOfLoc_getLast? (visibleOrder st items) st.selected hn h
  have hlen : 1 ≤ (visibleOrder st items).length := by
    cases hv : visibleOrder st items with
    | nil => rw [hv] at h; simp at h
    | cons x v' => simp
  unfold TreeState.key_down
  rw [hidx]
  have hmin :
      min ((visibleOrder st items).length - 1 + 1) ((visibleOrder st items).length - 1)
        = (visibleOrder st items).length - 1 := by omega
  dsimp only []
  rw [hmin, getD_getLast? _ _ _ h]

/-- After `first`, `up` is a no-op. -/
theorem first_up_fix (t : Filetree) : t.first.up = t.first := by
  cases hv : visibleOrder t.state t.files.items with
  | nil =>
    have h1 : t.state.select_first t.files.items = t.state := by
      unfold TreeState.select_first
      rw [hv]
      rfl
    have h2 : t.first = t := by
      unfold Filetree.first
      rw [h1]
    rw [h2]
    unfold Filetree.up TreeState.key_up
    rw [hv]
    rfl
  | cons x v' =>
    have hhead : (visibleOrder (t.state.select_first t.files.items) t.files.items).head?
        = some (t.state.select_first t.files.items).selected := by
      have hsel : (t.state.select_first t.files.items).selected = x := by
        unfold TreeState.select_first
        rw [hv]
        rfl
      have hvis : visibleOrder (t.state.select_first t.files.items) t.files.items
          = visibleOrder t.state t.files.items := rfl
      rw [hvis, hv, hsel]
      rfl
    have hkey := key_up_head _ _ hhead
    unfold Filetree.up Filetree.first
    dsimp only []
    rw [hkey]

/-- After `last`, `down` is a no-op. -/
theorem last_down_fix (t : Filetree) : t.last.down = t.last := by
  cases hv : visibleOrder t.state t.files.items with
  | nil =>
    have h1 : t.state.select_last t.files.items = t.state := by
      unfold TreeState.select_last
      rw [hv]
      rfl
    have h2 : t.last = t := by
      unfold Filetree.last
      rw [h1]
    rw [h2]
    unfold Filetree.down TreeState.key_down
    rw [hv]
    rfl
  | cons x v' =>
    have hlt : (x :: v').length - 1 < (x :: v').length := by simp
    have hz : (visibleOrder t.state t.files.items).getLast?
        = some ((x :: v').getLast (by simp)) := by
      rw [hv]
      exact List.getLast?_eq_getLast _ _
    have hlast : (visibleOrder (t.state.select_last t.files.items) t.files.items).getLast?
        = some (t.state.select_last t.files.items).selected := by
      have hsel : (t.state.select_last t.files.items).selected
          = (x :: v').getLast (by simp) := by
        unfold TreeState.select_last
        dsimp only []
        rw [List.getLastD_eq_getLast?, hv]
        rw [show (x :: v').getLast? = some ((x :: v').getLast (by simp)) from
          List.getLast?_eq_getLast _ _]
        rfl
      have hvis : visibleOrder (t.state.select_last t.files.items) t.files.items
          = visibleOrder t.state t.files.items := rfl
      rw [hvis, hz, hsel]
    have hkey := key_down_last _ _ hlast
    unfold Filetree.down Filetree.last
    dsimp only []
    rw [hkey]

/-- Claim C10: navigation clamps at the boundaries with no wraparound:
after `first()` any number of `up()` calls leaves the state unchanged; after
`last()` any number of `down()` calls leaves the state unchanged; and `up()`
at the first visible node and `down()` at the last visible node are no-ops. -/
theorem claim_C10_navigation_clamps (t : Filetree) (n : Nat) :
    Filetree.up^[n] t.first = t.first ∧
      Filetree.down^[n] t.last = t.last ∧
      ((visibleOrder t.state t.files.items).head? = some t.state.selected → t.up = t) ∧
      ((visibleOrder t.state t.files.items).getLast? = some t.state.selected → t.down = t) := by
  refine ⟨Function.iterate_fixed (first_up_fix t) n,
    Function.iterate_fixed (last_down_fix t) n, ?_, ?_⟩
  · intro h
    have hkey := key_up_head t.state t.files.items h
    unfold Filetree.up
    rw [hkey]
  · intro h
    have hkey := key_down_last t.state t.files.items h
    unfold Filetree.down
    rw [hkey]

/-! ### Concrete instances used as witnesses -/

/-- A root with one file and one empty directory. -/
def exFs1 : Files := ⟨[], ⟨["r"], [Item.file ["r", "x"], Item.dir ["r", "d"] []]⟩⟩

/-- `exFs1` after removing the file at index 0. -/
def exFs1r : Files := ⟨[TreeItem.node "d" []], ⟨["r"], [Item.dir ["r", "d"] []]⟩⟩

/-- `exFs1` after adding file `n` inside the directory at index 1. -/
def exFs1a : Files :=
  ⟨[TreeItem.node "x" [], TreeItem.node "d" [TreeItem.node "n" []]],
    ⟨["r"], [Item.file ["r", "x"], Item.dir ["r", "d"] [Item.file ["r", "d", "n"]]]⟩⟩

/-- A root with a directory holding one file, then a file. -/
def exFs2 : Files :=
  ⟨[], ⟨["r"], [Item.dir ["r", "d"] [Item.file ["r", "d", "x"]], Item.file ["r", "y"]]⟩⟩

/-- A two-file tree with the first node selected and nothing expanded. -/
def exTree10 : Filetree :=
  ⟨⟨[0], []⟩,
    ⟨[TreeItem.node "a" [], TreeItem.node "b" []],
      ⟨["r"], [Item.file ["r", "a"], Item.file ["r", "b"]]⟩⟩, ["r"]⟩

/-- The same tree as `exTree10` with the last node selected. -/
def exTree10b : Filetree :=
  ⟨⟨[1], []⟩,
    ⟨[TreeItem.node "a" [], TreeItem.node "b" []],
      ⟨["r"], [Item.file ["r", "a"], Item.file ["r", "b"]]⟩⟩, ["r"]⟩

/-- Witness for C1: both mutations succeed on `exFs1` and the resulting states
satisfy the rebuilt-projection invariant. -/
theorem claim_C1_witness :
    exFs1.remove_file [0] = Outcome.ok (Item.file ["r", "x"]) exFs1r ∧
      exFs1r.items = build_filetree exFs1r.dir ∧
      exFs1.add_file [1] "n" = Outcome.ok ["r", "d", "n"] exFs1a ∧
      exFs1a.items = build_filetree exFs1a.dir :=
  ⟨rfl, (claim_C1_projection_fresh exFs1 [0] "n").1 (Item.file ["r", "x"]) exFs1r rfl,
    rfl, (claim_C1_projection_fresh exFs1 [1] "n").2 ["r", "d", "n"] exFs1a rfl⟩

/-- Witness for C2: a length-1 removal and a nested removal on `exFs2`,
with the states predicted by the claim. -/
theorem claim_C2_witness :
    exFs2.remove_file [1]
        = Outcome.ok (Item.file ["r", "y"])
            ⟨[TreeItem.node "d" [TreeItem.node "x" []]],
              ⟨["r"], [Item.dir ["r", "d"] [Item.file ["r", "d", "x"]]]⟩⟩ ∧
      exFs2.remove_file [0, 0]
        = Outcome.ok (Item.file ["r", "d", "x"])
            ⟨[TreeItem.node "d" [], TreeItem.node "y" []],
              ⟨["r"], [Item.dir ["r", "d"] [], Item.file ["r", "y"]]⟩⟩ :=
  ⟨(claim_C2_remove_file_spec exFs2 [1]).1 1 rfl (by decide),
    ((claim_C2_remove_file_spec exFs2 [0, 0]).2.2.2.2 ["r", "d"] [Item.file ["r", "d", "x"]]
        (by decide) rfl).1 (by decide)⟩

/-- Witness for the amended C3: adding `n` to the directory at `[0]` of a
fresh tree returns the (unique, hence first) matching file. -/
theorem claim_C3_witness :
    (∃ q, ([Item.file ["r", "d", "n"]]).find? (fun c => last_of_path c.path == "n")
          = some (Item.file q) ∧
        Files.add_file ⟨[], ⟨["r"], [Item.dir ["r", "d"] []]⟩⟩ [0] "n"
          = Outcome.ok q
              ⟨build_filetree
                  ((⟨["r"], [Item.dir ["r", "d"] []]⟩ : Dir).set_nested [0]
                    (Item.dir ["r", "d"] [Item.file ["r", "d", "n"]])),
                (⟨["r"], [Item.dir ["r", "d"] []]⟩ : Dir).set_nested [0]
                  (Item.dir ["r", "d"] [Item.file ["r", "d", "n"]])⟩) ∨
    (∃ q cs, ([Item.file ["r", "d", "n"]]).find? (fun c => last_of_path c.path == "n")
          = some (Item.dir q cs) ∧
        Files.add_file ⟨[], ⟨["r"], [Item.dir ["r", "d"] []]⟩⟩ [0] "n" = Outcome.panicked) :=
  claim_C3_amended ⟨[], ⟨["r"], [Item.dir ["r", "d"] []]⟩⟩ [0] "n" ["r", "d"] [] rfl

/-- Witness for the amended C4: on `exTree4` the removal succeeds and the
expand set loses exactly the selected location. -/
theorem claim_C4_witness :
    exTree4.files.remove_file exTree4.state.selected
        = Outcome.ok (Item.dir ["r", "a", "b"] []) exTree4'.files ∧
      exTree4'.state.opened
        = exTree4.state.opened.filter (fun l => decide (l ≠ exTree4.state.selected)) ∧
      exTree4'.state.selected = exTree4.state.selected :=
  claim_C4_amended exTree4 (Item.dir ["r", "a", "b"] []) exTree4' rfl

/-- Witness for C7: an out-of-range removal and a failed addition on `exFs1`
return invalid-location errors carrying the unchanged state. -/
theorem claim_C7_witness :
    exFs1.remove_file [5] = Outcome.error exFs1 ∧
      exFs1.add_file [5] "n" = Outcome.error exFs1 ∧
      exFs1 = exFs1 ∧ exFs1 = exFs1 :=
  ⟨rfl, rfl, (claim_C7_error_atomicity exFs1 [5] "n").1 exFs1 rfl,
    (claim_C7_error_atomicity exFs1 [5] "n").2 exFs1 rfl⟩

/-- Witness for C10: iterated `up` after `first` and iterated `down` after
`last` are fixed, and the boundary single steps are no-ops on concrete
trees. -/
theorem claim_C10_witness :
    Filetree.up^[3] exTree10.first = exTree10.first ∧
      Filetree.down^[3] exTree10.last = exTree10.last ∧
      exTree10.up = exTree10 ∧ exTree10b.down = exTree10b :=
  ⟨(claim_C10_navigation_clamps exTree10 3).1,
    (claim_C10_navigation_clamps exTree10 3).2.1,
    (claim_C10_navigation_clamps exTree10 3).2.2.1 rfl,
    (claim_C10_navigation_clamps exTree10b 3).2.2.2 rfl⟩
